import Mathlib

/-!
Shallow embedding of the Crawl_DB fetch/resume crawl engine.

Python strings are modelled as `List Char` (`Str` below); Python dicts with
insertion order are modelled as association lists; SQLite state is modelled
explicitly as a `committed`/`current` pair of databases so that transaction
(`with conn:`) semantics are visible.  Every definition is translated from
the repository source (`src/fetch_runtime.py`, `src/app/core/fetch_runtime.py`,
`src/storage.py`, `src/app/core/utils.py`, `src/app/collection/actors/actor_magnets.py`,
`src/get_collect_scope_magnets.py`, `src/get_collect_scope_works.py`).
-/

set_option maxRecDepth 10000

namespace CrawlDB

/-- Python `str` modelled as a list of characters. -/
abbrev Str := List Char

/-- Literal helper: turn a Lean string literal into the `Str` model. -/
def lit (s : String) : Str := s.data

/-- Whitespace set of Python `str.strip` (ASCII part; the source only strips
ASCII whitespace in the inputs that occur here). -/
def pySpace (c : Char) : Bool :=
  c == ' ' || c == '\t' || c == '\n' || c == '\x0d' || c == '\x0b' || c == '\x0c'

/-- Python `str.strip()`: drop leading and trailing whitespace. -/
def strip (s : Str) : Str :=
  ((s.dropWhile pySpace).reverse.dropWhile pySpace).reverse

/-- Python `str.lower()` (ASCII case folding, as used on the inputs here). -/
def lowerStr (s : Str) : Str := s.map Char.toLower

/-- Python `needle in hay` on strings. -/
def strContains (hay needle : Str) : Bool :=
  match hay with
  | [] => needle.isEmpty
  | _ :: t => needle.isPrefixOf hay || strContains t needle

/-- Python `hay.startswith(needle)`. -/
def startsWith (hay needle : Str) : Bool := needle.isPrefixOf hay

/-- Python truthiness of an optional string (`if s:`): present and non-empty. -/
def truthyStr : Option Str → Bool
  | some s => !s.isEmpty
  | none => false

/-! ## Block detector (`is_blocked_page`, src/fetch_runtime.py:124-146 and the
identical copy at src/app/core/fetch_runtime.py:145-167). -/

/-- The fixed body marker set of `is_blocked_page`. -/
def blockPatterns : List Str :=
  [lit "cf-wrapper", lit "sorry, you have been blocked", lit "cloudflare ray id"]

/-- The `for marker in patterns` loop: first marker contained in the lowered
body wins, reason `html:<marker>`. -/
def findBodyMarker (bodyLower : Str) : List Str → Option Str
  | [] => none
  | marker :: rest =>
    if strContains bodyLower marker then some (lit "html:" ++ marker)
    else findBodyMarker bodyLower rest

/-- `is_blocked_page(html, title, status_code)` from src/fetch_runtime.py. -/
def is_blocked_page (html title : Str) (status_code : Option Int) :
    Bool × Option Str :=
  if status_code = some 403 then
    (true, some (lit "status_403"))
  else
    let title_lower := lowerStr title
    if strContains title_lower (lit "cloudflare") ||
        strContains title_lower (lit "attention required") then
      (true, some (lit "title_cloudflare"))
    else
      let body_lower := lowerStr html
      match findBodyMarker body_lower blockPatterns with
      | some reason => (true, some reason)
      | none => (false, none)

end CrawlDB

namespace CrawlDB

/-- C1: status 403 wins first; otherwise a Cloudflare-ish title; otherwise the
first body marker; otherwise not blocked; and the literal example. -/
theorem is_blocked_page_precedence :
    (∀ html title, is_blocked_page html title (some 403) =
        (true, some (lit "status_403"))) ∧
    (∀ html title status, status ≠ some 403 →
        (strContains (lowerStr title) (lit "cloudflare") ||
          strContains (lowerStr title) (lit "attention required")) = true →
        is_blocked_page html title status = (true, some (lit "title_cloudflare"))) ∧
    (∀ html title status, status ≠ some 403 →
        (strContains (lowerStr title) (lit "cloudflare") ||
          strContains (lowerStr title) (lit "attention required")) = false →
        is_blocked_page html title status =
          match findBodyMarker (lowerStr html) blockPatterns with
          | some reason => (true, some reason)
          | none => (false, none)) ∧
    is_blocked_page (lit "<html></html>") (lit "ok") (some 403) =
      (true, some (lit "status_403")) := by
  refine ⟨fun html title => ?_, fun html title status hs hc => ?_,
    fun html title status hs hc => ?_, ?_⟩
  · simp [is_blocked_page]
  · simp [is_blocked_page, hs, hc]
  · simp [is_blocked_page, hs, hc]
  · rfl

/-- Closed witness for `is_blocked_page_precedence`: instantiate every
hypothesis-carrying conjunct at concrete pages. -/
theorem is_blocked_page_precedence_witness :
    is_blocked_page (lit "<html><body>hi</body></html>")
        (lit "Attention Required! | Cloudflare") (some 200) =
      (true, some (lit "title_cloudflare")) ∧
    is_blocked_page (lit "<div class=cf-wrapper>x</div>") (lit "ok") none =
      (true, some (lit "html:cf-wrapper")) ∧
    is_blocked_page (lit "<html></html>") (lit "ok") (some 200) = (false, none) := by
  refine ⟨?_, ?_, ?_⟩
  · exact is_blocked_page_precedence.2.1 _ _ (some 200) (by decide) (by decide)
  · exact (is_blocked_page_precedence.2.2.1 _ _ none (by decide) (by decide)).trans
      (by decide)
  · exact (is_blocked_page_precedence.2.2.1 _ _ (some 200) (by decide)
      (by decide)).trans (by decide)

end CrawlDB

namespace CrawlDB

/-! ## Challenge-wait loop (`PlaywrightPageFetcher.fetch`,
src/fetch_runtime.py:266-277 and src/app/core/fetch_runtime.py:288-299).
One loop iteration: compute `remaining = deadline - now`; if `remaining <= 0`
raise the Playwright timeout (caught: return the blocked result); otherwise
call `wait_for_selector` with timeout `max(200, min(1000, int(remaining*1000)))`
milliseconds.  Time is modelled in integer milliseconds. -/

/-- What one iteration of the challenge-wait loop does. -/
inductive ChallengeStep where
  | exitTimeout : ChallengeStep
  | poll (timeout_ms : Int) : ChallengeStep
  deriving DecidableEq

/-- The per-iteration `wait_for_selector` timeout,
`max(200, min(1000, int(remaining * 1000)))`, over the remaining budget in
milliseconds. -/
def challengeWaitTimeoutMs (remaining_ms : Int) : Int :=
  max 200 (min 1000 remaining_ms)

/-- One iteration of the challenge-wait loop over the remaining budget. -/
def challengeStep (remaining_ms : Int) : ChallengeStep :=
  if remaining_ms ≤ 0 then ChallengeStep.exitTimeout
  else ChallengeStep.poll (challengeWaitTimeoutMs remaining_ms)

/-- C7 counterexample: with 100 ms of budget left the loop polls with a
200 ms timeout, which exceeds the remaining challenge budget. -/
theorem challenge_wait_budget_counterexample :
    challengeStep 100 = ChallengeStep.poll 200 ∧ ¬((200 : Int) ≤ 100) := by
  constructor
  · rfl
  · decide

/-- C7 (amended): the per-iteration wait timeout is clamped to
[200 ms, 1000 ms] — so it is bounded above by 1 second, and it never exceeds
the remaining challenge budget whenever that budget is at least 200 ms — and
the loop exits via the timeout branch as soon as the budget is non-positive. -/
theorem challenge_wait_amended :
    (∀ r : Int, r ≤ 0 → challengeStep r = ChallengeStep.exitTimeout) ∧
    (∀ r : Int, 0 < r →
      challengeStep r = ChallengeStep.poll (challengeWaitTimeoutMs r) ∧
      challengeWaitTimeoutMs r ≤ 1000 ∧
      200 ≤ challengeWaitTimeoutMs r ∧
      (200 ≤ r → challengeWaitTimeoutMs r ≤ r)) := by
  constructor
  · intro r hr
    simp [challengeStep, hr]
  · intro r hr
    refine ⟨?_, ?_, ?_, ?_⟩
    · simp only [challengeStep, if_neg (by omega : ¬ r ≤ 0)]
    · simp only [challengeWaitTimeoutMs]; omega
    · simp only [challengeWaitTimeoutMs]; omega
    · intro h200
      simp only [challengeWaitTimeoutMs]; omega

/-- Closed witness for `challenge_wait_amended` at budgets 0 and 500 ms. -/
theorem challenge_wait_amended_witness :
    challengeStep 0 = ChallengeStep.exitTimeout ∧
    (challengeStep 500 = ChallengeStep.poll (challengeWaitTimeoutMs 500) ∧
      challengeWaitTimeoutMs 500 ≤ 1000 ∧
      200 ≤ challengeWaitTimeoutMs 500 ∧
      (200 ≤ (500 : Int) → challengeWaitTimeoutMs 500 ≤ 500)) :=
  ⟨challenge_wait_amended.1 0 (by decide),
    challenge_wait_amended.2 500 (by decide)⟩

end CrawlDB

namespace CrawlDB

/-! ## Cookie normalizer (src/app/core/fetch_runtime.py:313-473).

A structured cookie item (`dict` in the source) is modelled as a record whose
optional fields are `none` exactly when the corresponding key is absent or
`None`.  `secure`/`httpOnly` present-but-`None` behaves in the source exactly
like an absent key (both fall through to the `elif`), so both are folded into
`none`.  `expires` is fed through `int(float(x))` in the source; the model
carries the resulting integer.  The flat-map-with-sidecar container
(`cookie_dict` plus the reserved `PLAYWRIGHT_COOKIE_ITEMS_KEY` entry) is
modelled as the tagged structure `CookieStore` with insertion-ordered
entries. -/

/-- A structured cookie item as supplied to the normalizer. -/
structure InCookie where
  name : Str
  value : Option Str
  url : Option Str
  domain : Option Str
  path : Option Str
  secure : Option Bool
  httpOnly : Option Bool
  sameSite : Option Str
  expires : Option Int
  deriving DecidableEq

/-- A normalized cookie item: field `none` means the key is absent in the
output dict of `_normalize_cookie_item`. -/
structure OutCookie where
  name : Str
  value : Str
  url : Option Str
  domain : Option Str
  path : Option Str
  secure : Option Bool
  httpOnly : Option Bool
  sameSite : Option Str
  expires : Option Int
  deriving DecidableEq

/-- `_normalize_cookie_item(item, default_host=...)`
(src/app/core/fetch_runtime.py:313-377). -/
def normalize_cookie_item (item : InCookie) (default_host : Str) :
    Option OutCookie :=
  let name := strip item.name
  match item.value with
  | none => none
  | some v =>
    if name.isEmpty then none
    else
      let is_host_cookie := startsWith name (lit "__Host-")
      let o0 : OutCookie :=
        ⟨name, v, none, none, none, none, none, none, none⟩
      let o1 := match item.url with
        | some u => if !u.isEmpty then {o0 with url := some u} else o0
        | none => o0
      let o2 := match item.domain with
        | some d =>
          if !d.isEmpty && !is_host_cookie then {o1 with domain := some d} else o1
        | none => o1
      let o3 :=
        if truthyStr item.path then {o2 with path := item.path}
        else if is_host_cookie then {o2 with path := some (lit "/")} else o2
      let o4 := match item.secure with
        | some b => {o3 with secure := some b}
        | none =>
          if is_host_cookie || startsWith name (lit "__Secure-") then
            {o3 with secure := some true}
          else o3
      let o5 := match item.httpOnly with
        | some b => {o4 with httpOnly := some b}
        | none => o4
      let o6 := match item.sameSite with
        | some ss =>
          let n := lowerStr (strip ss)
          if n = lit "strict" then {o5 with sameSite := some (lit "Strict")}
          else if n = lit "lax" then {o5 with sameSite := some (lit "Lax")}
          else if n = lit "none" then {o5 with sameSite := some (lit "None")}
          else o5
        | none => o5
      let o7 := match item.expires with
        | some e => {o6 with expires := some e}
        | none => o6
      let o8 :=
        if is_host_cookie then
          {o7 with domain := none, path := some (lit "/"), secure := some true}
        else o7
      let o9 :=
        if o8.url.isNone && o8.domain.isNone && !is_host_cookie &&
            !default_host.isEmpty then
          {o8 with domain := some default_host}
        else o8
      let o10 :=
        if o9.url.isNone && o9.path.isNone then {o9 with path := some (lit "/")}
        else o9
      some o10


/-- The flat map plus sidecar container: insertion-ordered `name -> value`
entries plus the structured items stored under
`PLAYWRIGHT_COOKIE_ITEMS_KEY` (empty list = key absent). -/
structure CookieStore where
  entries : List (Str × Str)
  items : List InCookie
  deriving DecidableEq

/-- Python dict assignment `d[k] = v` on an insertion-ordered assoc list. -/
def dictSet (d : List (Str × Str)) (k v : Str) : List (Str × Str) :=
  match d with
  | [] => [(k, v)]
  | (k', v') :: rest =>
    if k' = k then (k, v) :: rest else (k', v') :: dictSet rest k v

/-- `_coerce_cookie_store` (src/app/core/fetch_runtime.py:454-473), on the
structured-list input branch: every mapping item is kept in the sidecar, and
well-formed (name, value) pairs populate the flat map. -/
def coerce_cookie_store (cookies : List InCookie) : CookieStore :=
  cookies.foldl
    (fun acc item =>
      let acc := { acc with items := acc.items ++ [item] }
      let name := strip item.name
      match item.value with
      | some v =>
        if !name.isEmpty then { acc with entries := dictSet acc.entries name v }
        else acc
      | none => acc)
    ⟨[], []⟩

/-- Lookup in the `index_by_name` map. -/
def dictGetNat (d : List (Str × Nat)) (k : Str) : Option Nat :=
  match d with
  | [] => none
  | (k', v) :: rest => if k' = k then some v else dictGetNat rest k

/-- Assignment in the `index_by_name` map. -/
def dictSetNat (d : List (Str × Nat)) (k : Str) (v : Nat) : List (Str × Nat) :=
  match d with
  | [] => [(k, v)]
  | (k', v') :: rest =>
    if k' = k then (k, v) :: rest else (k', v') :: dictSetNat rest k v

/-- `output[existing]["value"] = normalized["value"]`: overwrite the value of
the item at index `i`. -/
def setCookieValue : List OutCookie → Nat → Str → List OutCookie
  | [], _, _ => []
  | c :: rest, 0, v => { c with value := v } :: rest
  | c :: rest, n + 1, v => c :: setCookieValue rest n v

/-- `_normalize_playwright_cookies` (src/app/core/fetch_runtime.py:384-444)
on the mapping branch: first the sidecar items are normalized and appended,
then every flat entry (the sidecar key itself is skipped) either updates the
value of an already-indexed item of the same name or appends a fresh
normalized `{name, value}` item. -/
def normalize_playwright_cookies (store : CookieStore) (default_host : Str) :
    List OutCookie :=
  let afterItems :=
    store.items.foldl
      (fun (acc : List OutCookie × List (Str × Nat)) item =>
        match normalize_cookie_item item default_host with
        | none => acc
        | some out => (acc.1 ++ [out], dictSetNat acc.2 out.name acc.1.length))
      ([], [])
  (store.entries.foldl
    (fun (acc : List OutCookie × List (Str × Nat)) kv =>
      let name := strip kv.1
      if name.isEmpty then acc
      else
        match normalize_cookie_item
            ⟨name, some kv.2, none, none, none, none, none, none, none⟩
            default_host with
        | none => acc
        | some out =>
          match dictGetNat acc.2 name with
          | none => (acc.1 ++ [out], dictSetNat acc.2 name acc.1.length)
          | some i => (setCookieValue acc.1 i out.value, acc.2))
    afterItems).1

/-- A cookie fixture with every attribute populated. -/
def cookieFixture : InCookie :=
  ⟨lit "sid", some (lit "v"), none, some (lit "example.com"), some (lit "/x"),
    some true, some true, some (lit "Lax"), some 123⟩

/-- C4: converting the all-attributes fixture to the flat-map-plus-sidecar
store and back reproduces domain, path, secure, httpOnly, sameSite and
expires of the original item. -/
theorem cookie_roundtrip_preserves_attributes :
    (normalize_playwright_cookies (coerce_cookie_store [cookieFixture])
        (lit "javdb.com")).length = 1 ∧
    ((normalize_playwright_cookies (coerce_cookie_store [cookieFixture])
        (lit "javdb.com")).head?.map
        (fun out => (out.domain, out.path, out.secure, out.httpOnly,
          out.sameSite, out.expires)) =
      some (cookieFixture.domain, cookieFixture.path, cookieFixture.secure,
        cookieFixture.httpOnly, cookieFixture.sameSite,
        cookieFixture.expires)) := by
  constructor
  · rfl
  · rfl

end CrawlDB

namespace CrawlDB

/-- The spec's literal `__Host-` example: `{name: "__Host-auth",
domain: ".site.com", path: "/"}` — note it carries no `value` key. -/
def hostCookieSpecExample : InCookie :=
  ⟨lit "__Host-auth", none, none, some (lit ".site.com"), some (lit "/"),
    none, none, none, none⟩

/-- C5 counterexample: the spec's literal example item has no `value`, so
`_normalize_cookie_item` drops it entirely (returns `None`) — it does not
yield an item with no domain key and path "/". -/
theorem host_cookie_example_counterexample :
    normalize_cookie_item hostCookieSpecExample (lit "javdb.com") = none ∧
    (∀ out : OutCookie,
      normalize_cookie_item hostCookieSpecExample (lit "javdb.com") ≠
        some out) := by
  refine ⟨rfl, fun out h => ?_⟩
  rw [show normalize_cookie_item hostCookieSpecExample (lit "javdb.com") =
    none from rfl] at h
  exact Option.noConfusion h

/-- C5 (amended): whenever `_normalize_cookie_item` does produce an output
item for a cookie whose (stripped) name starts with `__Host-`, that item has
no domain key, path "/" and secure true — even when the input supplied a
domain. -/
theorem host_cookie_invariants (item : InCookie) (host : Str) (out : OutCookie)
    (hname : startsWith (strip item.name) (lit "__Host-") = true)
    (hout : normalize_cookie_item item host = some out) :
    out.domain = none ∧ out.path = some (lit "/") ∧ out.secure = some true := by
  cases hval : item.value with
  | none => simp [normalize_cookie_item, hval] at hout
  | some v =>
    by_cases hn : (strip item.name).isEmpty = true
    · simp [normalize_cookie_item, hval, hn] at hout
    · simp [normalize_cookie_item, hval, hn, hname] at hout
      subst hout
      simp

/-- The amended example: the spec's `__Host-` item with a value added. -/
def hostCookieAmendedExample : InCookie :=
  ⟨lit "__Host-auth", some (lit "v"), none, some (lit ".site.com"),
    some (lit "/"), none, none, none, none⟩

/-- What `_normalize_cookie_item` produces for `hostCookieAmendedExample`. -/
def hostCookieAmendedOut : OutCookie :=
  ⟨lit "__Host-auth", lit "v", none, none, some (lit "/"), some true,
    none, none, none⟩

/-- Closed witness for `host_cookie_invariants` at the amended example. -/
theorem host_cookie_invariants_witness :
    hostCookieAmendedOut.domain = none ∧
    hostCookieAmendedOut.path = some (lit "/") ∧
    hostCookieAmendedOut.secure = some true :=
  host_cookie_invariants hostCookieAmendedExample (lit "javdb.com")
    hostCookieAmendedOut (by decide) (by decide)

end CrawlDB

namespace CrawlDB

/-! ## Work filters (`_apply_work_filters` and helpers,
src/app/collection/actors/actor_magnets.py:131-191).  The candidate set
`all_works` (a dict actor-name -> list of work rows) is modelled as an
insertion-ordered association list; the duplicate-free filter lists are
produced upstream by `_normalize_filters`. -/

/-- One work row as returned by `get_all_collection_works`. -/
structure Work where
  code : Str
  href : Str
  title : Str
  deriving DecidableEq

/-- Python `str.upper()` (ASCII case folding, as used on the codes here). -/
def upperStr (s : Str) : Str := s.map Char.toUpper

/-- `_filter_works_by_code_keywords(works, keywords)`. -/
def filter_works_by_code_keywords (works : List Work) (keywords : List Str) :
    List Work :=
  if keywords.isEmpty then works
  else
    let keyword_set := (keywords.filter (fun k => !k.isEmpty)).map upperStr
    if keyword_set.isEmpty then works
    else works.filter (fun w =>
      keyword_set.any (fun k => strContains (upperStr w.code) k))

/-- `_filter_works_by_series_prefixes(works, prefixes)`. -/
def filter_works_by_series_prefixes (works : List Work) (prefixes : List Str) :
    List Work :=
  if prefixes.isEmpty then works
  else
    let prefix_set := (prefixes.filter (fun p => !p.isEmpty)).map upperStr
    if prefix_set.isEmpty then works
    else works.filter (fun w =>
      prefix_set.any (fun p => startsWith (upperStr w.code) p))

/-- Python `name in all_works` / `all_works[name]` on the assoc-list dict. -/
def dictGetWorks (d : List (Str × List Work)) (k : Str) :
    Option (List Work) :=
  match d with
  | [] => none
  | (k', v) :: rest => if k' = k then some v else dictGetWorks rest k

/-- `_apply_work_filters(all_works, actor_filters=..., code_keywords=...,
series_prefixes=...)` (src/app/collection/actors/actor_magnets.py:164-191). -/
def apply_work_filters (all_works : List (Str × List Work))
    (actor_filters code_keywords series_prefixes : List Str) :
    List (Str × List Work) :=
  if !actor_filters.isEmpty then
    actor_filters.filterMap (fun name =>
      match dictGetWorks all_works name with
      | some ws => if !ws.isEmpty then some (name, ws) else none
      | none => none)
  else if !code_keywords.isEmpty then
    all_works.filterMap (fun kv =>
      let matched := filter_works_by_code_keywords kv.2 code_keywords
      if !matched.isEmpty then some (kv.1, matched) else none)
  else if !series_prefixes.isEmpty then
    all_works.filterMap (fun kv =>
      let matched := filter_works_by_series_prefixes kv.2 series_prefixes
      if !matched.isEmpty then some (kv.1, matched) else none)
  else all_works

/-- A candidate set for the literal filter-precedence scenario. -/
def filterScenarioWorks : List (Str × List Work) :=
  [(lit "A", [⟨lit "AAA-1", lit "/a1", lit "t1"⟩]),
   (lit "B", [⟨lit "BBB-2", lit "/b2", lit "t2"⟩])]

/-- C6: a non-empty exact-name filter makes the code-contains and code-prefix
filters irrelevant; a non-empty code-contains filter (with no exact-name
filter) makes the code-prefix filter irrelevant; with all filters empty the
full candidate set is kept; and in the literal scenario
`exactNames=["A"], contains=["X"]` exactly the target named "A" is selected
even though no code contains "X". -/
theorem apply_work_filters_precedence :
    (∀ all af ck sp, af ≠ [] →
      apply_work_filters all af ck sp = apply_work_filters all af [] []) ∧
    (∀ all ck sp, ck ≠ [] →
      apply_work_filters all [] ck sp = apply_work_filters all [] ck []) ∧
    (∀ all, apply_work_filters all [] [] [] = all) ∧
    apply_work_filters filterScenarioWorks [lit "A"] [lit "X"] [] =
      [(lit "A", [⟨lit "AAA-1", lit "/a1", lit "t1"⟩])] := by
  refine ⟨fun all af ck sp haf => ?_, fun all ck sp hck => ?_, fun all => ?_, ?_⟩
  · have : af.isEmpty = false := by
      cases af with
      | nil => exact absurd rfl haf
      | cons a l => rfl
    simp [apply_work_filters, this]
  · have : ck.isEmpty = false := by
      cases ck with
      | nil => exact absurd rfl hck
      | cons a l => rfl
    simp [apply_work_filters, this]
  · simp [apply_work_filters]
  · rfl

/-- Closed witness for `apply_work_filters_precedence`: instantiate the
hypothesis-carrying conjuncts on the literal scenario. -/
theorem apply_work_filters_precedence_witness :
    apply_work_filters filterScenarioWorks [lit "A"] [lit "X"] [lit "Z"] =
      apply_work_filters filterScenarioWorks [lit "A"] [] [] ∧
    apply_work_filters filterScenarioWorks [] [lit "X"] [lit "Z"] =
      apply_work_filters filterScenarioWorks [] [lit "X"] [] :=
  ⟨apply_work_filters_precedence.1 filterScenarioWorks [lit "A"] [lit "X"]
      [lit "Z"] (by decide),
    apply_work_filters_precedence.2.1 filterScenarioWorks [lit "X"] [lit "Z"]
      (by decide)⟩

end CrawlDB

namespace CrawlDB

/-! ## Magnet-list parser (`parse_magnets`,
src/app/collection/actors/actor_magnets.py:28-91).  BeautifulSoup CSS
selection over the parsed document is embedded as list filtering over an
abstract DOM: the `#magnets-content` root is optional; its direct child
`div`s are the entries; each anchor records its raw `href` attribute, whether
it sits under the entry's `div.magnet-name.column.is-four-fifths` wrapper,
and its `span` descendants (with their classes, stripped text, and whether
they sit inside a nested `div`, which is what `select("div span")`
matches). -/

/-- A `span` under a magnet anchor. -/
structure Span where
  classes : List Str
  text : Str
  inDiv : Bool
  deriving DecidableEq

/-- An `a[href]` element in document order under one entry. -/
structure MagnetAnchor where
  href : Str
  inMagnetNameDiv : Bool
  spans : List Span
  deriving DecidableEq

/-- One direct child `div` of `#magnets-content`. -/
structure MagnetEntry where
  anchors : List MagnetAnchor
  deriving DecidableEq

/-- The `#magnets-content` root: its entries plus all anchors below it (used
by the final `root.select("a[href^='magnet:']")` fallback). -/
structure MagnetsRoot where
  entries : List MagnetEntry
  anchors : List MagnetAnchor
  deriving DecidableEq

/-- A parsed HTML document, as far as `parse_magnets` looks at it. -/
structure MagnetsDoc where
  root : Option MagnetsRoot
  deriving DecidableEq

/-- One record of the returned list. -/
structure MagnetRec where
  href : Str
  tags : List Str
  size : Str
  deriving DecidableEq

/-- `entry.select_one("div.magnet-name.column.is-four-fifths a[href^='magnet:']")`. -/
def selectNameAnchor (e : MagnetEntry) : Option MagnetAnchor :=
  e.anchors.find? (fun a =>
    a.inMagnetNameDiv && startsWith a.href (lit "magnet:"))

/-- `entry.select_one("a[href^='magnet:']")`. -/
def selectAnyMagnetAnchor (e : MagnetEntry) : Option MagnetAnchor :=
  e.anchors.find? (fun a => startsWith a.href (lit "magnet:"))

/-- The tag texts collected from `anchor.select("div span")`, skipping spans
classed `name` or `meta` and empty texts. -/
def anchorTags (a : MagnetAnchor) : List Str :=
  (a.spans.filter (fun s => s.inDiv)).filterMap (fun s =>
    if s.classes.any (fun c => c == lit "name" || c == lit "meta") then none
    else
      let text := strip s.text
      if text.isEmpty then none else some text)

/-- `anchor.select_one("span.meta")` text, or "". -/
def anchorSize (a : MagnetAnchor) : Str :=
  match a.spans.find? (fun s => s.classes.any (fun c => c == lit "meta")) with
  | some s => strip s.text
  | none => lit ""

/-- The per-entry extraction loop plus the whole-root anchor fallback —
everything of `parse_magnets` before the final dedup pass. -/
def rawMagnets (doc : MagnetsDoc) : List MagnetRec :=
  match doc.root with
  | none => []
  | some root =>
    let primary := root.entries.filterMap (fun e =>
      match (match selectNameAnchor e with
             | some a => some a
             | none => selectAnyMagnetAnchor e) with
      | none => none
      | some anchor =>
        let href := strip anchor.href
        if startsWith href (lit "magnet:") then
          some ⟨href, anchorTags anchor, anchorSize anchor⟩
        else none)
    if primary.isEmpty then
      root.anchors.filterMap (fun a =>
        if startsWith a.href (lit "magnet:") then
          let href := strip a.href
          if !href.isEmpty then some ⟨href, [], lit ""⟩ else none
        else none)
    else primary

/-- The final dedup pass of `parse_magnets`: keep the first record for each
magnet URI. -/
def dedupByHref : List MagnetRec → List Str → List MagnetRec
  | [], _ => []
  | r :: rest, seen =>
    if seen.contains r.href then dedupByHref rest seen
    else r :: dedupByHref rest (r.href :: seen)

/-- `parse_magnets(html)` over the abstract document. -/
def parse_magnets (doc : MagnetsDoc) : List MagnetRec :=
  dedupByHref (rawMagnets doc) []

/-- Dropping one element of the tail under `dropWhile` keeps a suffix headed
by a non-matching element intact. -/
theorem dropWhile_append_exists (q : Char → Bool) (x : List Char) (c : Char)
    (pr : List Char) (hc : q c = false) :
    ∃ y, (x ++ (c :: pr)).dropWhile q = y ++ (c :: pr) := by
  induction x with
  | nil =>
    exact ⟨[], by simp [List.dropWhile, hc]⟩
  | cons a x ih =>
    by_cases ha : q a = true
    · obtain ⟨y, hy⟩ := ih
      exact ⟨y, by simp [List.dropWhile, ha, hy]⟩
    · exact ⟨a :: x, by simp [List.dropWhile, ha]⟩

/-- `str.strip()` preserves a leading `"magnet:"`. -/
theorem strip_preserves_magnet_prefix (s : Str)
    (h : startsWith s (lit "magnet:") = true) :
    startsWith (strip s) (lit "magnet:") = true := by
  rw [startsWith, List.isPrefixOf_iff_prefix] at h
  obtain ⟨t, rfl⟩ := h
  rw [startsWith, List.isPrefixOf_iff_prefix, strip]
  have h1 : (lit "magnet:" ++ t).dropWhile pySpace = lit "magnet:" ++ t := by
    simp [lit, List.dropWhile, pySpace]
  rw [h1, List.reverse_append]
  have h2 : (lit "magnet:").reverse = ':' :: lit "tengam" := by decide
  rw [h2]
  obtain ⟨y, hy⟩ :=
    dropWhile_append_exists pySpace t.reverse ':' (lit "tengam") (by decide)
  rw [hy, List.reverse_append]
  have h3 : (':' :: lit "tengam").reverse = lit "magnet:" := by decide
  rw [h3]
  exact ⟨y.reverse, rfl⟩

/-- Every raw record's href starts with "magnet:". -/
theorem rawMagnets_prefix (doc : MagnetsDoc) (r : MagnetRec)
    (hr : r ∈ rawMagnets doc) : startsWith r.href (lit "magnet:") = true := by
  unfold rawMagnets at hr
  cases hroot : doc.root with
  | none => rw [hroot] at hr; simp at hr
  | some root =>
    rw [hroot] at hr
    simp only at hr
    split at hr
    · rw [List.mem_filterMap] at hr
      obtain ⟨a, _, ha⟩ := hr
      by_cases hp : startsWith a.href (lit "magnet:") = true
      · rw [if_pos hp] at ha
        by_cases he : ((strip a.href).isEmpty : Bool) = true
        · simp [he] at ha
        · simp only [Bool.not_eq_true] at he
          simp [he] at ha
          subst ha
          exact strip_preserves_magnet_prefix a.href hp
      · simp [hp] at ha
    · rw [List.mem_filterMap] at hr
      obtain ⟨e, _, he⟩ := hr
      rcases hsel : (match selectNameAnchor e with
          | some a => some a
          | none => selectAnyMagnetAnchor e) with _ | anchor
      · rw [hsel] at he; simp at he
      · rw [hsel] at he
        simp only at he
        by_cases hp : startsWith (strip anchor.href) (lit "magnet:") = true
        · rw [if_pos hp] at he
          obtain rfl := (Option.some.injEq _ _).mp he
          exact hp
        · rw [if_neg hp] at he; exact absurd he (by simp)


theorem dedupByHref_sublist (l : List MagnetRec) (seen : List Str) :
    (dedupByHref l seen).Sublist l := by
  induction l generalizing seen with
  | nil => simp [dedupByHref]
  | cons r rest ih =>
    rw [dedupByHref]
    split
    · exact (ih seen).trans (List.sublist_cons_self r rest)
    · exact (ih (r.href :: seen)).cons₂ r

theorem dedupByHref_not_seen (l : List MagnetRec) (seen : List Str)
    (r : MagnetRec) (hr : r ∈ dedupByHref l seen) :
    r.href ∉ seen := by
  induction l generalizing seen with
  | nil => simp [dedupByHref] at hr
  | cons a rest ih =>
    rw [dedupByHref] at hr
    split at hr
    · exact ih seen hr
    · rcases List.mem_cons.mp hr with rfl | hmem
      · intro habs
        rename_i hc
        rw [show (seen.contains r.href = true) ↔ r.href ∈ seen by
          simp [List.contains_eq_any_beq]] at hc
        exact hc habs
      · intro habs
        exact ih (a.href :: seen) hmem (List.mem_cons_of_mem _ habs)

theorem dedupByHref_nodup (l : List MagnetRec) (seen : List Str) :
    ((dedupByHref l seen).map MagnetRec.href).Nodup := by
  induction l generalizing seen with
  | nil => simp [dedupByHref]
  | cons a rest ih =>
    rw [dedupByHref]
    split
    · exact ih seen
    · rw [List.map_cons, List.nodup_cons]
      refine ⟨fun habs => ?_, ih (a.href :: seen)⟩
      obtain ⟨x, hx, hxh⟩ := List.mem_map.mp habs
      exact dedupByHref_not_seen rest (a.href :: seen) x hx
        (hxh ▸ List.mem_cons_self a.href seen)

theorem dedupByHref_covers (l : List MagnetRec) (seen : List Str)
    (r : MagnetRec) (hr : r ∈ l) :
    r.href ∈ seen ∨ r.href ∈ (dedupByHref l seen).map MagnetRec.href := by
  induction l generalizing seen with
  | nil => simp at hr
  | cons a rest ih =>
    rw [dedupByHref]
    rcases List.mem_cons.mp hr with rfl | hmem
    · split
      · left
        rename_i hc
        rw [show (seen.contains r.href = true) ↔ r.href ∈ seen by
          simp [List.contains_eq_any_beq]] at hc
        exact hc
      · right
        simp
    · split
      · exact ih seen hmem
      · rcases ih (a.href :: seen) hmem with hseen | hout
        · rcases List.mem_cons.mp hseen with heq | hseen'
          · right; rw [List.map_cons]; exact heq ▸ List.mem_cons_self _ _
          · left; exact hseen'
        · right; exact List.mem_cons_of_mem _ hout

/-- C10: every record returned by `parse_magnets` has an href starting with
"magnet:"; the returned hrefs are pairwise distinct; the returned list is an
order-preserving sublist of the pre-dedup records; and every pre-dedup magnet
URI is still represented — i.e. the result is the raw list deduplicated by
magnet URI, keeping first occurrences in order. -/
theorem parse_magnets_invariant (doc : MagnetsDoc) :
    (∀ r ∈ parse_magnets doc, startsWith r.href (lit "magnet:") = true) ∧
    ((parse_magnets doc).map MagnetRec.href).Nodup ∧
    (parse_magnets doc).Sublist (rawMagnets doc) ∧
    (∀ r ∈ rawMagnets doc,
      r.href ∈ (parse_magnets doc).map MagnetRec.href) := by
  refine ⟨fun r hr => ?_, ?_, ?_, fun r hr => ?_⟩
  · exact rawMagnets_prefix doc r
      ((dedupByHref_sublist (rawMagnets doc) []).mem hr)
  · exact dedupByHref_nodup (rawMagnets doc) []
  · exact dedupByHref_sublist (rawMagnets doc) []
  · rcases dedupByHref_covers (rawMagnets doc) [] r hr with h | h
    · simp at h
    · exact h

/-- A concrete two-entry document with a duplicated magnet URI. -/
def magnetsDocExample : MagnetsDoc :=
  ⟨some ⟨[⟨[⟨lit "magnet:?xt=urn:btih:aaa", true,
            [⟨[lit "name"], lit "n", true⟩,
             ⟨[lit "meta"], lit "1.2GB", true⟩,
             ⟨[], lit "HD", true⟩]⟩]⟩,
         ⟨[⟨lit "magnet:?xt=urn:btih:aaa", false, []⟩]⟩],
        []⟩⟩

/-- Closed witness for `parse_magnets_invariant` on `magnetsDocExample`:
the duplicate URI is collapsed, the surviving record's href keeps its
"magnet:" prefix, and it still represents the second raw record. -/
theorem parse_magnets_invariant_witness :
    startsWith (⟨lit "magnet:?xt=urn:btih:aaa", [lit "HD"], lit "1.2GB"⟩ :
        MagnetRec).href (lit "magnet:") = true ∧
    ((parse_magnets magnetsDocExample).map MagnetRec.href).Nodup ∧
    (parse_magnets magnetsDocExample).Sublist (rawMagnets magnetsDocExample) ∧
    lit "magnet:?xt=urn:btih:aaa" ∈
      (parse_magnets magnetsDocExample).map MagnetRec.href :=
  ⟨(parse_magnets_invariant magnetsDocExample).1
      ⟨lit "magnet:?xt=urn:btih:aaa", [lit "HD"], lit "1.2GB"⟩ (by decide),
    (parse_magnets_invariant magnetsDocExample).2.1,
    (parse_magnets_invariant magnetsDocExample).2.2.1,
    (parse_magnets_invariant magnetsDocExample).2.2.2
      ⟨lit "magnet:?xt=urn:btih:aaa", [], lit ""⟩ (by decide)⟩

end CrawlDB

namespace CrawlDB

/-! ## Checkpointed resumption (`run_collection_magnets`,
src/get_collect_scope_magnets.py:77-120, with `save_checkpoint` /
`load_checkpoint` from src/app/core/utils.py:300-334).  The driver sorts the
filtered works dict case-insensitively by name (`sorted(..., key=kv[0].lower())`)
and walks it with `resume_mode = bool(resume_actor)`; a target is skipped
while `resume_mode` holds and its name differs from the checkpointed one; the
checkpointed target starts at the checkpointed index, later targets at 0.
The model projects the run to the list of `(target name, index, work)`
triples that are fetched and written to Storage, quantified over the
already-sorted candidate list exactly as the claim is. -/

/-- `enumerate(works, start=n)`. -/
def enumFrom : Nat → List Work → List (Nat × Work)
  | _, [] => []
  | n, w :: ws => (n, w) :: enumFrom (n + 1) ws

/-- The target/item loop of `run_collection_magnets`, projected to the
processed `(name, index, work)` triples. -/
def runLoop :
    List (Str × List Work) → Bool → Str → Nat → List (Str × Nat × Work)
  | [], _, _, _ => []
  | (name, works) :: rest, resumeMode, resumeActor, resumeIndex =>
    if resumeMode ∧ name ≠ resumeActor then
      runLoop rest resumeMode resumeActor resumeIndex
    else
      let start := if name = resumeActor then resumeIndex else 0
      (enumFrom start (works.drop start)).map (fun p => (name, p.1, p.2)) ++
        runLoop rest false resumeActor resumeIndex

/-- `run_collection_magnets` over a sorted candidate list and an optional
loaded checkpoint cursor `{name, index}`: which items get processed.
`resume_mode = bool(resume_actor)`; with no checkpoint the cursor fields
default to `""` and `0`. -/
def run_collection_magnets_items (targets : List (Str × List Work))
    (ckpt : Option (Str × Nat)) : List (Str × Nat × Work) :=
  match ckpt with
  | none => runLoop targets false (lit "") 0
  | some c => runLoop targets (!c.1.isEmpty) c.1 c.2

/-- `save_checkpoint(checkpoint_name, {"name": name, "index": i + 1})`:
the cursor written right after processing item `(name, i, w)`. -/
def checkpointWritten (item : Str × Nat × Work) : Str × Nat :=
  (item.1, item.2.1 + 1)

/-- With no resume state pending, the loop processes every item of every
target from index 0. -/
theorem runLoop_no_resume (ts : List (Str × List Work)) (r : Str) (i : Nat)
    (hr : ∀ p ∈ ts, p.1 ≠ r) :
    runLoop ts false r i = runLoop ts false (lit "") 0 := by
  induction ts with
  | nil => rfl
  | cons p rest ih =>
    obtain ⟨name, works⟩ := p
    have hname : name ≠ r := hr (name, works) (List.mem_cons_self _ _)
    have ihr := ih (fun q hq => hr q (List.mem_cons_of_mem _ hq))
    simp only [runLoop, Bool.false_eq_true, false_and, if_false, ite_self,
      if_neg hname, ihr]

/-- While resuming, targets whose name differs from the checkpointed one are
skipped wholesale. -/
theorem runLoop_skip (pre rest : List (Str × List Work)) (name : Str) (N : Nat)
    (hpre : ∀ p ∈ pre, p.1 ≠ name) :
    runLoop (pre ++ rest) true name N = runLoop rest true name N := by
  induction pre with
  | nil => rfl
  | cons p pre' ih =>
    obtain ⟨n', ws'⟩ := p
    rw [List.cons_append, runLoop]
    rw [if_pos ⟨rfl, hpre (n', ws') (List.mem_cons_self _ _)⟩]
    exact ih (fun q hq => hpre q (List.mem_cons_of_mem _ hq))

/-- `enumerate` and `drop` commute the expected way. -/
theorem enumFrom_drop (n : Nat) :
    ∀ (ws : List Work) (k : Nat),
      (enumFrom k ws).drop n = enumFrom (k + n) (ws.drop n) := by
  induction n with
  | zero => intro ws k; simp [List.drop]
  | succ m ih =>
    intro ws k
    cases ws with
    | nil => simp [enumFrom]
    | cons w ws' =>
      rw [enumFrom, List.drop_succ_cons, List.drop_succ_cons, ih ws' (k + 1)]
      congr 1
      omega


/-- `enumerate` preserves length. -/
theorem enumFrom_length : ∀ (ws : List Work) (k : Nat),
    (enumFrom k ws).length = ws.length := by
  intro ws
  induction ws with
  | nil => intro k; rfl
  | cons w ws' ih => intro k; rw [enumFrom, List.length_cons, ih, List.length_cons]

/-- A full (non-resuming) run distributes over list append. -/
theorem runLoop_append_full (A B : List (Str × List Work)) :
    runLoop (A ++ B) false (lit "") 0 =
      runLoop A false (lit "") 0 ++ runLoop B false (lit "") 0 := by
  induction A with
  | nil => rfl
  | cons p A' ih =>
    obtain ⟨name, works⟩ := p
    simp only [List.cons_append, runLoop, Bool.false_eq_true, false_and,
      if_false, ite_self, List.append_eq, ih, List.append_assoc]

/-- C3: with the checkpoint `{name, index = N}` written after the first
`(items of earlier targets) + N` items of the full run, the resumed run
processes exactly the remaining items — the full run's suffix from index `N`
of the checkpointed target onward — so re-running after a stop duplicates no
checkpointed item and skips none; and the cursor the driver writes after
item `(name, i, _)` is `{name, i+1}`, i.e. `{name, N}` after item `N-1`. -/
theorem run_collection_magnets_resume_exact
    (pre post : List (Str × List Work)) (name : Str) (ws : List Work) (N : Nat)
    (hname : name ≠ [])
    (hpre : ∀ p ∈ pre, p.1 ≠ name)
    (hpost : ∀ p ∈ post, p.1 ≠ name)
    (hN : N ≤ ws.length) :
    run_collection_magnets_items (pre ++ (name, ws) :: post)
        (some (name, N)) =
      (run_collection_magnets_items (pre ++ (name, ws) :: post) none).drop
        ((run_collection_magnets_items pre none).length + N) ∧
    (run_collection_magnets_items (pre ++ (name, ws) :: post) none).take
        ((run_collection_magnets_items pre none).length + N) ++
      run_collection_magnets_items (pre ++ (name, ws) :: post)
        (some (name, N)) =
      run_collection_magnets_items (pre ++ (name, ws) :: post) none ∧
    (∀ i w, i + 1 = N → checkpointWritten (name, i, w) = (name, N)) := by
  have hne : (!name.isEmpty) = true := by
    cases name with
    | nil => exact absurd rfl hname
    | cons c cs => rfl
  have hresume :
      run_collection_magnets_items (pre ++ (name, ws) :: post)
          (some (name, N)) =
        (enumFrom N (ws.drop N)).map (fun p => (name, p.1, p.2)) ++
          runLoop post false (lit "") 0 := by
    rw [run_collection_magnets_items, hne]
    rw [runLoop_skip pre ((name, ws) :: post) name N hpre]
    rw [runLoop]
    rw [if_neg (by simp)]
    rw [if_pos rfl]
    rw [runLoop_no_resume post name N hpost]
  have hfull :
      run_collection_magnets_items (pre ++ (name, ws) :: post) none =
        run_collection_magnets_items pre none ++
          ((enumFrom 0 ws).map (fun p => (name, p.1, p.2)) ++
            runLoop post false (lit "") 0) := by
    rw [run_collection_magnets_items, runLoop_append_full]
    simp only [runLoop, Bool.false_eq_true, false_and, if_false, ite_self,
      List.drop_zero]
    rfl
  have hdrop :
      (run_collection_magnets_items (pre ++ (name, ws) :: post) none).drop
          ((run_collection_magnets_items pre none).length + N) =
        (enumFrom N (ws.drop N)).map (fun p => (name, p.1, p.2)) ++
          runLoop post false (lit "") 0 := by
    rw [hfull, List.drop_append N]
    rw [List.drop_append_of_le_length (by rw [List.length_map, enumFrom_length]; exact hN)]
    rw [← List.map_drop, enumFrom_drop, Nat.zero_add]
  refine ⟨hresume.trans hdrop.symm, ?_, fun i w hi => ?_⟩
  · rw [hresume.trans hdrop.symm, List.take_append_drop]
  · rw [checkpointWritten, hi]

/-- Concrete targets for the resumption witness. -/
def c3Pre : List (Str × List Work) :=
  [(lit "A", [⟨lit "AAA-1", lit "/a1", lit "ta"⟩])]

/-- The checkpointed target's works. -/
def c3Ws : List Work :=
  [⟨lit "BBB-1", lit "/b1", lit "tb1"⟩, ⟨lit "BBB-2", lit "/b2", lit "tb2"⟩]

/-- Targets after the checkpointed one. -/
def c3Post : List (Str × List Work) :=
  [(lit "C", [⟨lit "CCC-1", lit "/c1", lit "tc"⟩])]

/-- Closed witness for `run_collection_magnets_resume_exact`: resume from
checkpoint `{B, 1}` over targets A, B (2 works), C. -/
theorem run_collection_magnets_resume_exact_witness :
    run_collection_magnets_items (c3Pre ++ (lit "B", c3Ws) :: c3Post)
        (some (lit "B", 1)) =
      (run_collection_magnets_items (c3Pre ++ (lit "B", c3Ws) :: c3Post)
          none).drop
        ((run_collection_magnets_items c3Pre none).length + 1) ∧
    (run_collection_magnets_items (c3Pre ++ (lit "B", c3Ws) :: c3Post)
        none).take
        ((run_collection_magnets_items c3Pre none).length + 1) ++
      run_collection_magnets_items (c3Pre ++ (lit "B", c3Ws) :: c3Post)
        (some (lit "B", 1)) =
      run_collection_magnets_items (c3Pre ++ (lit "B", c3Ws) :: c3Post) none ∧
    (∀ i w, i + 1 = 1 →
      checkpointWritten (lit "B", i, w) = (lit "B", 1)) :=
  run_collection_magnets_resume_exact c3Pre c3Post (lit "B") c3Ws 1
    (by decide) (by decide) (by decide) (by decide)

end CrawlDB

namespace CrawlDB

/-! ## Storage layer (src/storage.py).  SQLite state is a `committed` database
plus the connection's `current` (possibly uncommitted) view.  A
`with self.conn:` block in the source runs its statements against `current`
and commits on success (sqlite3 connection context manager); `commit()` /
`rollback()` in `Storage.__exit__` synchronize `committed` and `current`.
`lastrowid` is modelled by explicit per-table id counters.  Commit events are
logged so that transactional grouping is visible. -/

/-- One `actors` row. -/
structure ActorRow where
  id : Nat
  name : Str
  href : Option Str
  deriving DecidableEq

/-- One `works` row. -/
structure WorkTableRow where
  id : Nat
  actorId : Nat
  code : Str
  title : Option Str
  href : Option Str
  deriving DecidableEq

/-- One `magnets` row. -/
structure MagnetRow where
  workId : Nat
  magnet : Str
  tags : Option Str
  size : Option Str
  deriving DecidableEq

/-- The relational store (the tables the magnet path touches). -/
structure DB where
  actors : List ActorRow
  works : List WorkTableRow
  magnets : List MagnetRow
  nextActorId : Nat
  nextWorkId : Nat
  deriving DecidableEq

/-- A sqlite connection: last committed state plus current view. -/
structure Conn where
  committed : DB
  current : DB
  deriving DecidableEq

/-- Successful exit of a `with self.conn:` block, or `conn.commit()`. -/
def commitTxn (c : Conn) : Conn := { c with committed := c.current }

/-- `conn.rollback()`. -/
def rollbackTxn (c : Conn) : Conn := { c with current := c.committed }

/-- Python `a or b` on two optional strings (truthiness). -/
def orElseTruthy (a b : Option Str) : Option Str :=
  if truthyStr a then a else b

/-- The `tags` field of a magnet record: a list, a plain string, or absent. -/
inductive TagsField where
  | absent
  | ofStr (s : Str)
  | ofList (items : List Str)
  deriving DecidableEq

/-- A magnet record as fed to `Storage.save_magnets` (the keys
`_normalize_magnet_record` reads). -/
structure MagnetInput where
  href : Option Str
  magnet : Option Str
  tags : TagsField
  size : Option Str
  deriving DecidableEq

/-- `", ".join(...)`. -/
def joinComma (items : List Str) : Str :=
  List.intercalate (lit ", ") items

/-- `_normalize_magnet_record(record)` (src/storage.py:55-67). -/
def normalize_magnet_record (r : MagnetInput) :
    Option (Str × Str × Str) :=
  let magnet := strip ((orElseTruthy r.href r.magnet).getD [])
  if magnet.isEmpty then none
  else
    let tags := match r.tags with
      | TagsField.ofList items =>
        joinComma ((items.filter (fun i => !i.isEmpty)).map strip)
      | TagsField.ofStr s => strip s
      | TagsField.absent => []
    let size := strip ((orElseTruthy r.size none).getD [])
    some (magnet, tags, size)

/-- `SELECT id FROM actors WHERE name = ?`. -/
def findActor (db : DB) (name : Str) : Option ActorRow :=
  db.actors.find? (fun a => a.name == name)

/-- `SELECT id FROM works WHERE actor_id = ? AND code = ?`. -/
def findWork (db : DB) (actorId : Nat) (code : Str) : Option WorkTableRow :=
  db.works.find? (fun w => w.actorId == actorId && w.code == code)

/-- `Storage._ensure_actor(name, href)` (src/storage.py:157-172): returns the
updated connection, the actor id, and the committed snapshots it produced. -/
def ensure_actor (c : Conn) (name : Str) (href : Option Str) :
    Conn × Nat × List DB :=
  match findActor c.current name with
  | some row =>
    let c' :=
      if truthyStr href then
        { c with current :=
          { c.current with actors := c.current.actors.map (fun a =>
            if a.id == row.id && !((a.href.getD []) == href.getD []) then
              { a with href := href }
            else a) } }
      else c
    (c', row.id, [])
  | none =>
    let db := c.current
    let newRow : ActorRow := ⟨db.nextActorId, name, href⟩
    let db' := { db with
      actors := db.actors ++ [newRow]
      nextActorId := db.nextActorId + 1 }
    let c' := commitTxn { c with current := db' }
    (c', newRow.id, [c'.committed])

/-- `Storage._ensure_work(actor_name, actor_href, code, title, href)`
(src/storage.py:412-438). -/
def ensure_work (c : Conn) (actor_name actor_href : Str) (code : Str)
    (title href : Option Str) : Conn × Nat × List DB :=
  let ea := ensure_actor c actor_name (some actor_href)
  let c1 := ea.1
  let actorId := ea.2.1
  match findWork c1.current actorId code with
  | some row => (c1, row.id, ea.2.2)
  | none =>
    let db := c1.current
    let newRow : WorkTableRow :=
      ⟨db.nextWorkId, actorId, code, orElseTruthy title none,
        orElseTruthy href none⟩
    let db' := { db with
      works := db.works ++ [newRow]
      nextWorkId := db.nextWorkId + 1 }
    let c2 := commitTxn { c1 with current := db' }
    (c2, newRow.id, ea.2.2 ++ [c2.committed])

/-- The rows inserted by `save_magnets` for work id `wid` from the
normalized entries (`tags or None`, `size or None`). -/
def magnetRowsFor (wid : Nat) (normalized : List (Str × Str × Str)) :
    List MagnetRow :=
  normalized.map (fun e =>
    ⟨wid, e.1, if e.2.1.isEmpty then none else some e.2.1,
      if e.2.2.isEmpty then none else some e.2.2⟩)

/-- `Storage.save_magnets(actor_name, actor_href, code, magnets, title=...,
href=...)` (src/storage.py:471-501): normalize, ensure the work row, then in
one `with self.conn:` transaction delete the work's magnet rows and insert
the new ones.  Returns the connection, the work id, the count, and the
committed snapshots in order. -/
def save_magnets (c : Conn) (actor_name actor_href code : Str)
    (magnets : List MagnetInput) (title href : Option Str) :
    Conn × Nat × Nat × List DB :=
  let normalized := magnets.filterMap normalize_magnet_record
  let ew := ensure_work c actor_name actor_href code title href
  let c1 := ew.1
  let wid := ew.2.1
  let db := c1.current
  let newMagnets :=
    db.magnets.filter (fun r => r.workId != wid) ++ magnetRowsFor wid normalized
  let db' := { db with magnets := newMagnets }
  let c2 := commitTxn { c1 with current := db' }
  (c2, wid, normalized.length, ew.2.2 ++ [c2.committed])

/-- The magnet rows stored for one work id. -/
def magnetsOf (db : DB) (wid : Nat) : List MagnetRow :=
  db.magnets.filter (fun r => r.workId == wid)


/-- `_ensure_actor` never touches the magnets table, in the current view or
in any snapshot it commits. -/
theorem ensure_actor_magnets (c : Conn) (name : Str) (href : Option Str) :
    (ensure_actor c name href).1.current.magnets = c.current.magnets ∧
    ∀ db ∈ (ensure_actor c name href).2.2, db.magnets = c.current.magnets := by
  cases hf : findActor c.current name with
  | some row =>
    constructor
    · by_cases ht : truthyStr href = true
      · simp [ensure_actor, hf, ht]
      · simp [ensure_actor, hf, ht]
    · intro db hdb
      simp [ensure_actor, hf] at hdb
  | none =>
    constructor
    · simp [ensure_actor, hf, commitTxn]
    · intro db hdb
      simp [ensure_actor, hf, commitTxn] at hdb
      subst hdb
      rfl

/-- `_ensure_work` never touches the magnets table, in the current view or
in any snapshot it commits. -/
theorem ensure_work_magnets (c : Conn) (an ah code : Str)
    (title href : Option Str) :
    (ensure_work c an ah code title href).1.current.magnets =
      c.current.magnets ∧
    ∀ db ∈ (ensure_work c an ah code title href).2.2,
      db.magnets = c.current.magnets := by
  obtain ⟨hcur, hlog⟩ := ensure_actor_magnets c an (some ah)
  cases hf : findWork (ensure_actor c an (some ah)).1.current
      (ensure_actor c an (some ah)).2.1 code with
  | some row =>
    constructor
    · simp only [ensure_work, hf]
      exact hcur
    · intro db hdb
      simp only [ensure_work, hf] at hdb
      exact hlog db hdb
  | none =>
    constructor
    · simp [ensure_work, hf, commitTxn]
      exact hcur
    · intro db hdb
      simp only [ensure_work, hf, commitTxn] at hdb
      rcases List.mem_append.mp hdb with h | h
      · exact hlog db h
      · simp only [List.mem_singleton] at h
        subst h
        simpa using hcur

/-- A row excluded by the delete cannot pass the kept-work filter. -/
theorem filter_ne_then_eq (l : List MagnetRow) (wid : Nat) :
    (l.filter (fun r => r.workId != wid)).filter
      (fun r => r.workId == wid) = [] := by
  induction l with
  | nil => rfl
  | cons r rest ih =>
    by_cases h : r.workId = wid
    · simp [List.filter_cons, h, ih]
    · simp [List.filter_cons, h, ih]

/-- Deleting one work's rows leaves every other work's rows intact. -/
theorem filter_comm_ne (l : List MagnetRow) (wid w : Nat) (h : w ≠ wid) :
    (l.filter (fun r => r.workId != wid)).filter (fun r => r.workId == w) =
      l.filter (fun r => r.workId == w) := by
  induction l with
  | nil => rfl
  | cons r rest ih =>
    by_cases hr : r.workId = wid
    · have hw : ¬wid = w := fun hh => h hh.symm
      simp [List.filter_cons, hr, ih, hw]
    · simp [List.filter_cons, hr, ih]

/-- All inserted rows carry the work's own id. -/
theorem filter_eq_rowsFor (wid : Nat) (normalized : List (Str × Str × Str)) :
    (magnetRowsFor wid normalized).filter (fun r => r.workId == wid) =
      magnetRowsFor wid normalized := by
  induction normalized with
  | nil => rfl
  | cons e rest ih =>
    simp [magnetRowsFor, List.filter_cons] at ih ⊢
    exact ih

/-- No inserted row carries another work's id. -/
theorem filter_ne_rowsFor (wid w : Nat) (h : w ≠ wid)
    (normalized : List (Str × Str × Str)) :
    (magnetRowsFor wid normalized).filter (fun r => r.workId == w) = [] := by
  induction normalized with
  | nil => rfl
  | cons e rest ih =>
    have : ((⟨wid, e.1, if e.2.1.isEmpty then none else some e.2.1,
        if e.2.2.isEmpty then none else some e.2.2⟩ : MagnetRow).workId == w)
        = false := by
      simp
      omega
    simp [magnetRowsFor, List.filter_cons, this] at ih ⊢
    exact ih


/-- C2: after `save_magnets` returns, the magnet rows stored for the touched
work are exactly the normalized input entries — in particular an empty input
leaves the work with zero rows — while every other work's rows are untouched;
and every committed snapshot of the call shows that work's rows either still
in their pre-call state or already fully replaced: the delete and the insert
are never committed separately. -/
theorem save_magnets_replaces (c : Conn) (an ah code : Str)
    (M : List MagnetInput) (title href : Option Str)
    (c' : Conn) (wid n : Nat) (log : List DB)
    (hrun : save_magnets c an ah code M title href = (c', wid, n, log)) :
    magnetsOf c'.committed wid =
      magnetRowsFor wid (M.filterMap normalize_magnet_record) ∧
    (∀ w, w ≠ wid → magnetsOf c'.committed w = magnetsOf c.current w) ∧
    (M = [] → magnetsOf c'.committed wid = []) ∧
    (∀ db ∈ log, magnetsOf db wid = magnetsOf c.current wid ∨
      magnetsOf db wid =
        magnetRowsFor wid (M.filterMap normalize_magnet_record)) := by
  obtain ⟨hcur, hlog⟩ := ensure_work_magnets c an ah code title href
  simp only [save_magnets, Prod.mk.injEq] at hrun
  obtain ⟨hc', hwid, hn, hlogeq⟩ := hrun
  subst hc'
  subst hwid
  subst hlogeq
  have hcommitted :
      (commitTxn { (ensure_work c an ah code title href).1 with
        current := { (ensure_work c an ah code title href).1.current with
          magnets :=
            (ensure_work c an ah code title href).1.current.magnets.filter
              (fun r => r.workId != (ensure_work c an ah code title href).2.1) ++
            magnetRowsFor (ensure_work c an ah code title href).2.1
              (M.filterMap normalize_magnet_record) } }).committed.magnets =
        (ensure_work c an ah code title href).1.current.magnets.filter
            (fun r => r.workId != (ensure_work c an ah code title href).2.1) ++
          magnetRowsFor (ensure_work c an ah code title href).2.1
            (M.filterMap normalize_magnet_record) := rfl
  have h1 : magnetsOf
      (commitTxn { (ensure_work c an ah code title href).1 with
        current := { (ensure_work c an ah code title href).1.current with
          magnets :=
            (ensure_work c an ah code title href).1.current.magnets.filter
              (fun r => r.workId != (ensure_work c an ah code title href).2.1) ++
            magnetRowsFor (ensure_work c an ah code title href).2.1
              (M.filterMap normalize_magnet_record) } }).committed
      (ensure_work c an ah code title href).2.1 =
      magnetRowsFor (ensure_work c an ah code title href).2.1
        (M.filterMap normalize_magnet_record) := by
    rw [magnetsOf, hcommitted, List.filter_append, filter_ne_then_eq,
      filter_eq_rowsFor, List.nil_append]
  refine ⟨h1, fun w hw => ?_, fun hM => ?_, fun db hdb => ?_⟩
  · simp only [magnetsOf]
    rw [hcommitted, List.filter_append, filter_comm_ne _ _ _ hw,
      filter_ne_rowsFor _ _ hw, List.append_nil, hcur]
  · rw [h1, hM]
    rfl
  · rcases List.mem_append.mp hdb with h | h
    · left
      simp only [magnetsOf]
      rw [hlog db h]
    · right
      simp only [List.mem_singleton] at h
      subst h
      exact h1


/-- A store whose work 1 already has three magnet rows. -/
def c2InitDB : DB :=
  ⟨[⟨1, lit "alice", some (lit "/a")⟩],
   [⟨1, 1, lit "CODE-1", none, none⟩],
   [⟨1, lit "magnet:?a", none, none⟩, ⟨1, lit "magnet:?b", none, none⟩,
    ⟨1, lit "magnet:?c", none, none⟩],
   2, 2⟩

/-- A connection with `c2InitDB` committed and current. -/
def c2Conn : Conn := ⟨c2InitDB, c2InitDB⟩

/-- Closed witness for `save_magnets_replaces`: a work with 3 stored magnets,
re-saved with an empty magnet list, ends with 0 magnets. -/
theorem save_magnets_replaces_witness :
    (magnetsOf c2Conn.current 1).length = 3 ∧
    magnetsOf
      (save_magnets c2Conn (lit "alice") (lit "/a") (lit "CODE-1") []
          none none).1.committed
      (save_magnets c2Conn (lit "alice") (lit "/a") (lit "CODE-1") []
          none none).2.1 = [] :=
  ⟨by decide,
    (save_magnets_replaces c2Conn (lit "alice") (lit "/a") (lit "CODE-1") []
        none none _ _ _ _ rfl).2.2.1 rfl⟩

/-! ## Run-level commit/rollback (`Storage.__exit__`, src/storage.py:88-102,
with `Storage.save_actors`, src/storage.py:129-148).  `__exit__` commits the
connection on clean exit and rolls it back when the block exits with an
exception — but each write method runs inside its own `with self.conn:`
block, which commits as soon as the write completes. -/

/-- An actor record as fed to `save_actors` (the keys
`_normalize_actor_record` reads). -/
structure ActorInput where
  actor_name : Option Str
  name : Option Str
  strong : Option Str
  title : Option Str
  href : Option Str
  url : Option Str
  deriving DecidableEq

/-- `_normalize_actor_record(record)` (src/storage.py:28-39). -/
def normalize_actor_record (r : ActorInput) : Option (Str × Str) :=
  let rawName :=
    (orElseTruthy r.actor_name
      (orElseTruthy r.name (orElseTruthy r.strong r.title))).getD []
  let rawHref := (orElseTruthy r.href r.url).getD []
  let nm := strip rawName
  let hf := strip rawHref
  if nm.isEmpty then none else some (nm, hf)

/-- `INSERT INTO actors ... ON CONFLICT(name) DO UPDATE SET
href=excluded.href`. -/
def upsertActor (db : DB) (name href : Str) : DB :=
  match db.actors.find? (fun a => a.name == name) with
  | some _ =>
    { db with actors := db.actors.map (fun a =>
        if a.name == name then { a with href := some href } else a) }
  | none =>
    { db with
      actors := db.actors ++ [⟨db.nextActorId, name, some href⟩]
      nextActorId := db.nextActorId + 1 }

/-- `Storage.save_actors(actors)` (src/storage.py:129-148): normalize, and if
any row is valid, upsert them all inside one `with self.conn:` transaction
that commits at the end of the call. -/
def save_actors (c : Conn) (actors : List ActorInput) : Conn × Nat :=
  let valid := actors.filterMap normalize_actor_record
  if valid.isEmpty then (c, 0)
  else
    let cur := valid.foldl (fun db nv => upsertActor db nv.1 nv.2) c.current
    (commitTxn { c with current := cur }, valid.length)

/-- One full `with Storage(...)` run: open (committed = current = the stored
db), perform the `save_actors` calls, then `__exit__`: commit when the block
exits cleanly, roll back when it exits with an exception.  Returns the
database that survives on disk. -/
def storageRun (init : DB) (calls : List (List ActorInput)) (errored : Bool) :
    DB :=
  let c1 := calls.foldl (fun c call => (save_actors c call).1)
    (⟨init, init⟩ : Conn)
  if errored then (rollbackTxn c1).committed else (commitTxn c1).committed

/-- The database-level effect of one completed `save_actors` call. -/
def applySaveActors (db : DB) (call : List ActorInput) : DB :=
  ((save_actors ⟨db, db⟩ call).1).committed

/-- A valid actor record for the rollback scenario. -/
def c8Row : ActorInput :=
  ⟨some (lit "alice"), none, none, none, some (lit "/a"), none⟩

/-- C8 counterexample: one completed `save_actors` call inside the block,
then an exception — the claim says none of the writes survive, but the
actor row is still there after the rollback, because `save_actors` already
committed its own transaction. -/
theorem storage_rollback_counterexample :
    (storageRun ⟨[], [], [], 1, 1⟩ [[c8Row]] true).actors =
      [⟨1, lit "alice", some (lit "/a")⟩] ∧
    (storageRun ⟨[], [], [], 1, 1⟩ [[c8Row]] true).actors ≠
      (⟨[], [], [], 1, 1⟩ : DB).actors := by
  constructor
  · rfl
  · decide

/-- `save_actors` keeps a synchronized connection synchronized and acts on
the database like `applySaveActors`. -/
theorem save_actors_synced (db : DB) (call : List ActorInput) :
    (save_actors ⟨db, db⟩ call).1 =
      ⟨applySaveActors db call, applySaveActors db call⟩ := by
  by_cases hv : (call.filterMap normalize_actor_record).isEmpty = true
  · simp [save_actors, applySaveActors, hv]
  · simp [save_actors, applySaveActors, hv, commitTxn]

/-- The whole call sequence keeps the connection synchronized. -/
theorem storage_foldl_synced (calls : List (List ActorInput)) (init : DB) :
    calls.foldl (fun c call => (save_actors c call).1)
        (⟨init, init⟩ : Conn) =
      ⟨calls.foldl applySaveActors init, calls.foldl applySaveActors init⟩ := by
  induction calls generalizing init with
  | nil => rfl
  | cons call rest ih =>
    rw [List.foldl_cons, List.foldl_cons, save_actors_synced, ih]

/-- C8 (amended): every completed `save_actors` call has already committed
its own transaction, so the surviving database is the fold of the completed
calls regardless of how the block exits — an exception rolls back only
uncommitted statements, it does not undo completed writes. -/
theorem storage_run_commits_per_write (init : DB)
    (calls : List (List ActorInput)) (errored : Bool) :
    storageRun init calls errored = calls.foldl applySaveActors init ∧
    storageRun init calls errored = storageRun init calls false := by
  have h : ∀ e : Bool, storageRun init calls e = calls.foldl applySaveActors init := by
    intro e
    rw [storageRun, storage_foldl_synced]
    cases e with
    | false => rfl
    | true => rfl
  exact ⟨h errored, (h errored).trans (h false).symm⟩

end CrawlDB

namespace CrawlDB

/-! ## Stage cancellation (`run_collection_works`,
src/get_collect_scope_works.py:88-137; `CancelledError` and
`ensure_not_cancelled`, src/app/core/utils.py:15-35).  The cooperative
cancellation predicate is modelled as a constant flag (the claim concerns a
predicate that answers true from the start); `ensure_not_cancelled` raising
`CancelledError` becomes the loop returning the distinct `cancelled` error.
`crawl_collection_works` (which fetches the listing pages) is modelled as an
oracle from a collection href to the number of works it yields; the run
records every href fetched and every `save_collection_works` write, so
"before fetching or persisting anything" is directly observable.
`record_history` is out of scope for this claim and not modelled. -/

/-- The failure taxonomy of a stage run: cancellation is a distinct signal,
distinguishable from the ordinary stage-aborting failure. -/
inductive RunError where
  | cancelled
  | failure
  deriving DecidableEq

/-- `load_checkpoint(name)`: look up one stage's cursor. -/
def dictGetCkpt (d : List (Str × (Str × Nat))) (k : Str) :
    Option (Str × Nat) :=
  match d with
  | [] => none
  | kv :: rest => if kv.1 = k then some kv.2 else dictGetCkpt rest k

/-- `save_checkpoint(name, cursor)`: upsert one stage's cursor. -/
def dictSetCkpt (d : List (Str × (Str × Nat))) (k : Str) (v : Str × Nat) :
    List (Str × (Str × Nat)) :=
  match d with
  | [] => [(k, v)]
  | kv :: rest =>
    if kv.1 = k then (k, v) :: rest else kv :: dictSetCkpt rest k v

/-- `clear_checkpoint(name)`: drop one stage's cursor. -/
def dictDelCkpt (d : List (Str × (Str × Nat))) (k : Str) :
    List (Str × (Str × Nat)) :=
  d.filter (fun kv => !(kv.1 == k))

/-- The observable state a stage run threads: the checkpoint store, the
Storage writes performed, and the hrefs fetched. -/
structure StageState where
  ckpt : List (Str × (Str × Nat))
  writes : List (Str × Nat)
  fetches : List Str
  deriving DecidableEq

/-- The per-collection loop of `run_collection_works`: check cancellation,
crawl the collection's works, persist them, write the checkpoint
`{name, index + 1}`, continue. -/
def worksLoop (worksOf : Str → Nat) (stage : Str) (cancelled : Bool) :
    List (Str × Str) → Nat → StageState →
      Option RunError × List (Str × Nat) × StageState
  | [], _, st => (none, [], st)
  | (name, href) :: rest, idx, st =>
    if cancelled then (some RunError.cancelled, [], st)
    else
      let n := worksOf href
      let st1 : StageState :=
        { st with
          fetches := st.fetches ++ [href]
          writes := st.writes ++ [(name, n)]
          ckpt := dictSetCkpt st.ckpt stage (name, idx + 1) }
      let r := worksLoop worksOf stage cancelled rest (idx + 1) st1
      (r.1, (name, n) :: r.2.1, r.2.2)

/-- `run_collection_works` (src/get_collect_scope_works.py:88-137): filter the
collections, resume from the stage checkpoint, run the loop, and clear the
checkpoint on clean completion.  Returns the summary (or the error that
unwound the stage) plus the final observable state. -/
def run_collection_works (collections : List (Str × Str)) (filters : List Str)
    (ckptStore : List (Str × (Str × Nat))) (stage : Str) (cancelled : Bool)
    (worksOf : Str → Nat) :
    Except RunError (List (Str × Nat)) × StageState :=
  let cols :=
    if filters.isEmpty then collections
    else collections.filter (fun p => filters.contains p.1)
  let st0 : StageState := ⟨ckptStore, [], []⟩
  if !filters.isEmpty && cols.isEmpty then (Except.ok [], st0)
  else
    let start := match dictGetCkpt ckptStore stage with
      | some cur => cur.2
      | none => 0
    let r := worksLoop worksOf stage cancelled (cols.drop start) start st0
    match r.1 with
    | some e => (Except.error e, r.2.2)
    | none =>
      (Except.ok r.2.1, { r.2.2 with ckpt := dictDelCkpt r.2.2.ckpt stage })

/-- C9: if the cancellation predicate answers true from the start and there
is at least one (filtered) collection to process, the stage raises the
distinct cancellation signal before any fetch or Storage write, and the
checkpoint store still has no entry for the stage. -/
theorem run_collection_works_cancelled_clean (collections : List (Str × Str))
    (filters : List Str) (ckptStore : List (Str × (Str × Nat))) (stage : Str)
    (worksOf : Str → Nat)
    (hne : (if filters.isEmpty then collections
      else collections.filter (fun p => filters.contains p.1)) ≠ [])
    (hck : dictGetCkpt ckptStore stage = none) :
    (run_collection_works collections filters ckptStore stage true
        worksOf).1 = Except.error RunError.cancelled ∧
    (run_collection_works collections filters ckptStore stage true
        worksOf).2.writes = [] ∧
    (run_collection_works collections filters ckptStore stage true
        worksOf).2.fetches = [] ∧
    (run_collection_works collections filters ckptStore stage true
        worksOf).2.ckpt = ckptStore ∧
    dictGetCkpt (run_collection_works collections filters ckptStore stage true
        worksOf).2.ckpt stage = none ∧
    RunError.cancelled ≠ RunError.failure := by
  rcases hl : (if filters.isEmpty then collections
      else collections.filter (fun p => filters.contains p.1)) with _ | ⟨p, rest⟩
  · exact absurd hl hne
  · obtain ⟨name, href⟩ := p
    have hrun : run_collection_works collections filters ckptStore stage true
        worksOf = (Except.error RunError.cancelled, ⟨ckptStore, [], []⟩) := by
      rw [run_collection_works]
      simp only [hl, hck, List.isEmpty_cons, Bool.and_false, List.drop_zero,
        worksLoop, if_pos rfl]
      rfl
    rw [hrun]
    exact ⟨rfl, rfl, rfl, rfl, hck, by decide⟩

/-- Closed witness for `run_collection_works_cancelled_clean`: two subjects,
no filters, empty checkpoint store, predicate true from the start. -/
theorem run_collection_works_cancelled_clean_witness :
    (run_collection_works [(lit "A", lit "/a"), (lit "B", lit "/b")] []
        [] (lit "collection_works:series") true (fun _ => 0)).1 =
      Except.error RunError.cancelled ∧
    (run_collection_works [(lit "A", lit "/a"), (lit "B", lit "/b")] []
        [] (lit "collection_works:series") true (fun _ => 0)).2.writes = [] ∧
    (run_collection_works [(lit "A", lit "/a"), (lit "B", lit "/b")] []
        [] (lit "collection_works:series") true (fun _ => 0)).2.fetches = [] ∧
    (run_collection_works [(lit "A", lit "/a"), (lit "B", lit "/b")] []
        [] (lit "collection_works:series") true (fun _ => 0)).2.ckpt = [] ∧
    dictGetCkpt (run_collection_works [(lit "A", lit "/a"), (lit "B", lit "/b")]
        [] [] (lit "collection_works:series") true (fun _ => 0)).2.ckpt
      (lit "collection_works:series") = none ∧
    RunError.cancelled ≠ RunError.failure :=
  run_collection_works_cancelled_clean
    [(lit "A", lit "/a"), (lit "B", lit "/b")] [] []
    (lit "collection_works:series") (fun _ => 0)
    (by decide) rfl

end CrawlDB
